import Mathlib

/-!
Verification of the thesis data-preprocessing pipeline
(`preprocessing_code.py`): stage classification, per-company canonical
stage assignment with exit truncation, deal numbering, and the
long-to-wide reshaper.  Definitions are shallow embeddings of the Python
source; theorems settle the specification's claims about them.
-/

set_option maxRecDepth 4000

namespace Preproc

/-! ### Character/string helpers (Python `.strip().lower()` and `in`) -/

/-- Lowercase every character, as Python `str.lower` does for ASCII labels. -/
def lower_chars (l : List Char) : List Char := l.map Char.toLower

/-- Python `str.strip()`: drop whitespace from both ends. -/
def strip_chars (l : List Char) : List Char :=
  ((l.dropWhile Char.isWhitespace).reverse.dropWhile Char.isWhitespace).reverse

/-- Whether `pat` is an initial segment of `l` (helper for substring test). -/
def is_pre : List Char → List Char → Bool
  | [], _ => true
  | _ :: _, [] => false
  | a :: as, b :: bs => a == b && is_pre as bs

/-- Python's `pat in s` substring containment on character lists. -/
def has_sub (pat : List Char) : List Char → Bool
  | [] => is_pre pat []
  | b :: bs => is_pre pat (b :: bs) || has_sub pat bs

/-- The normalized form `str(raw).strip().lower()` used by the classifier. -/
def norm_stage (s : String) : List Char := lower_chars (strip_chars s.data)

/-! ### StageClassifier (`classify_raw_stage`) -/

/-- The prioritized (pattern, result) cascade of `classify_raw_stage`,
in source order; an `if c1 or c2` line becomes two adjacent rules with
the same result, which has the same first-match semantics. -/
def classify_rules : List (List Char × String) :=
  [("merger".data, "Exit"),
   ("pre-ipo".data, "Exit"), ("pre ipo".data, "Exit"),
   ("pipe".data, "Exit"),
   ("series a".data, "Series A"),
   ("series b".data, "Series B"),
   ("series c".data, "Series C"),
   ("series d".data, "Series D"),
   ("series e".data, "Series E"), ("series f".data, "Series E"),
   ("series g".data, "Series E"), ("series h".data, "Series E"),
   ("series i".data, "Series E"),
   ("seed".data, "Seed"),
   ("secondary stock purchase".data, "Series E"),
   ("add-on".data, "Series E"), ("add on".data, "Series E"),
   ("growth capital".data, "Series E"), ("expansion".data, "Series E")]

/-- Top-to-bottom, first-match-wins evaluation of the `if` cascade. -/
def first_match : List (List Char × String) → List Char → Option String
  | [], _ => none
  | rule :: rules, s => if has_sub rule.1 s then some rule.2 else first_match rules s

/-- Embedding of `classify_raw_stage`.  `none` input models a NaN raw
stage; `none` output models Python `None` ("no direct mapping"). -/
def classify_raw_stage (raw_stage : Option String) : Option String :=
  match raw_stage with
  | none => none
  | some raw => first_match classify_rules (norm_stage raw)

/-! ### Data model -/

/-- One input deal record (the columns kept in step 2.2 of `main`). -/
structure DealRecord where
  dealId : Nat
  dealDate : Option Int
  stage : Option String
  companyName : String
  companyId : Nat
  dealSizeUsd : Option Int
  companyRevenue : Option Int
deriving DecidableEq

/-! ### SequenceAssigner (`assign_canonical_stages_and_exit`) -/

def stages_order : List String :=
  ["Seed", "Series A", "Series B", "Series C", "Series D", "Series E"]

/-- `stage_to_idx` dict: position of a canonical stage in `stages_order`. -/
def stage_to_idx (s : String) : Nat := stages_order.indexOf s

def max_idx : Nat := stages_order.length - 1

/-- The target-index computation of the assigner's loop body for a
non-exit record: `last_idx` is the fold state, `mapped` the classifier
output. -/
def assign_idx (last_idx : Option Nat) (mapped : Option String) : Nat :=
  match last_idx with
  | none =>
    match mapped with
    | some m => stage_to_idx m
    | none => 0
  | some last =>
    let candidate_idx := min (last + 1) max_idx
    match mapped with
    | some m =>
      let raw_idx := stage_to_idx m
      if raw_idx ≥ last then min raw_idx max_idx else candidate_idx
    | none => candidate_idx

/-- The `for _, row in group.iterrows()` loop of
`assign_canonical_stages_and_exit`, accumulating `assigned_stages`;
state is (`last_idx`, `exited`). -/
def assign_stages_loop : Option Nat → Bool → List DealRecord → List String
  | _, _, [] => []
  | last_idx, exited, row :: rest =>
    if exited then assign_stages_loop last_idx exited rest
    else
      let mapped := classify_raw_stage row.stage
      if mapped = some "Exit" then
        "Exit" :: assign_stages_loop last_idx true rest
      else
        let idx := assign_idx last_idx mapped
        stages_order.getD idx "" :: assign_stages_loop (some idx) exited rest

/-- The stage column computed for one company's ordered group. -/
def assigned_stages (group : List DealRecord) : List String :=
  assign_stages_loop none false group

/-- `assign_canonical_stages_and_exit`: the truncated group
(`group.iloc[:n]`) with its `CANONICAL_STAGE` column. -/
def assign_canonical_stages_and_exit (group : List DealRecord) :
    List (DealRecord × String) :=
  (group.take (assigned_stages group).length).zip (assigned_stages group)

/-! ### DealNumberer (step 2.6: groupby cumcount + 1) -/

/-- Per-company `deal_number = cumcount() + 1` attached to the assigned rows. -/
def number_deals (assigned : List (DealRecord × String)) :
    List (Nat × DealRecord × String) :=
  assigned.enum.map (fun p => (p.1 + 1, p.2))

/-! ### Sample records used in concrete scenarios -/

/-- A sample record: only `dealId` and the raw stage label vary. -/
def mk_deal (id : Nat) (st : Option String) : DealRecord :=
  ⟨id, none, st, "Acme", 1, none, none⟩

/-! ### Helper lemmas about the assigner -/

theorem max_idx_eq : max_idx = 5 := rfl

/-- Once `exited` is set, the loop emits nothing at all. -/
theorem assign_stages_loop_exited (last : Option Nat) (l : List DealRecord) :
    assign_stages_loop last true l = [] := by
  induction l with
  | nil => rfl
  | cons r rest ih => simpa [assign_stages_loop] using ih

/-- A successful first match returns one of the table's result strings. -/
theorem first_match_mem {m : String} :
    ∀ (rules : List (List Char × String)) (s : List Char),
      first_match rules s = some m → m ∈ rules.map Prod.snd := by
  intro rules
  induction rules with
  | nil => intro s h; simp [first_match] at h
  | cons rule rules ih =>
    intro s h
    simp only [first_match] at h
    split at h
    · simp only [Option.some.injEq] at h
      simp [h]
    · simp [ih s h]

/-- The classifier only ever returns `"Exit"` or a member of `stages_order`. -/
theorem classify_mem {r : Option String} {m : String}
    (h : classify_raw_stage r = some m) : m = "Exit" ∨ m ∈ stages_order := by
  cases r with
  | none => simp [classify_raw_stage] at h
  | some s =>
    have hm := first_match_mem classify_rules (norm_stage s) h
    exact (by decide :
      ∀ x ∈ classify_rules.map Prod.snd, x = "Exit" ∨ x ∈ stages_order) m hm

/-- The ordinal of a canonical stage is at most `max_idx`. -/
theorem stage_to_idx_le_max {m : String} (h : m ∈ stages_order) :
    stage_to_idx m ≤ max_idx := by
  have : ∀ x ∈ stages_order, stage_to_idx x ≤ max_idx := by decide
  exact this m h

/-- Looking up a bounded index in `stages_order` lands in `stages_order`. -/
theorem getD_stages_mem {i : Nat} (h : i ≤ max_idx) :
    stages_order.getD i "" ∈ stages_order := by
  have hb : ∀ j, j < 6 → stages_order.getD j "" ∈ stages_order := by decide
  exact hb i (by have h5 := max_idx_eq; omega)

/-- No entry of `stages_order` (nor the default) is the string `"Exit"`. -/
theorem getD_stages_ne_exit (i : Nat) : stages_order.getD i "" ≠ "Exit" := by
  by_cases h : i < 6
  · exact (by decide : ∀ j, j < 6 → stages_order.getD j "" ≠ "Exit") i h
  · rw [List.getD_eq_default]
    · decide
    · simp only [stages_order, List.length_cons, List.length_nil]
      omega

/-- `stage_to_idx` inverts `stages_order.getD` on bounded indices. -/
theorem stage_to_idx_getD {i : Nat} (h : i ≤ max_idx) :
    stage_to_idx (stages_order.getD i "") = i := by
  have hb : ∀ j, j < 6 → stage_to_idx (stages_order.getD j "") = j := by decide
  exact hb i (by have h5 := max_idx_eq; omega)

/-- Only index 5 can produce the emitted string `"Series E"`. -/
theorem getD_stages_eq_seriesE {i : Nat}
    (h : stages_order.getD i "" = "Series E") : i = 5 := by
  by_cases hi : i < 6
  · exact (by decide :
      ∀ j, j < 6 → stages_order.getD j "" = "Series E" → j = 5) i hi h
  · rw [List.getD_eq_default] at h
    · exact absurd h (by decide)
    · simp only [stages_order, List.length_cons, List.length_nil]
      omega

/-- The target index computed for a non-exit classification is bounded. -/
theorem assign_idx_le_max {last_idx : Option Nat} {r : Option String}
    (hl : ∀ k, last_idx = some k → k ≤ max_idx)
    (hne : classify_raw_stage r ≠ some "Exit") :
    assign_idx last_idx (classify_raw_stage r) ≤ max_idx := by
  cases hm : classify_raw_stage r with
  | none =>
    cases last_idx with
    | none => simp [assign_idx]
    | some last => exact Nat.min_le_right (last + 1) max_idx
  | some m =>
    have hmem : m ∈ stages_order := by
      rcases classify_mem hm with h | h
      · exact absurd (h ▸ hm) hne
      · exact h
    cases last_idx with
    | none => simpa [assign_idx] using stage_to_idx_le_max hmem
    | some last =>
      simp only [assign_idx]
      split
      · exact Nat.min_le_right _ _
      · exact Nat.min_le_right _ _

/-- The target index never regresses below the previous state. -/
theorem le_assign_idx {last : Nat} (mapped : Option String)
    (h : last ≤ max_idx) : last ≤ assign_idx (some last) mapped := by
  cases mapped with
  | none => exact Nat.le_min.mpr ⟨Nat.le_succ last, h⟩
  | some m =>
    simp only [assign_idx]
    split
    · next hge => exact Nat.le_min.mpr ⟨hge, h⟩
    · exact Nat.le_min.mpr ⟨Nat.le_succ last, h⟩

/-- Unfolding: a record classified Exit emits `"Exit"` and ends the company. -/
theorem loop_cons_exit (last : Option Nat) (r : DealRecord) (rest : List DealRecord)
    (h : classify_raw_stage r.stage = some "Exit") :
    assign_stages_loop last false (r :: rest) = ["Exit"] := by
  simp [assign_stages_loop, h, assign_stages_loop_exited]

/-- Unfolding: a non-exit record emits its target stage and recurses. -/
theorem loop_cons_ne (last : Option Nat) (r : DealRecord) (rest : List DealRecord)
    (h : ¬ classify_raw_stage r.stage = some "Exit") :
    assign_stages_loop last false (r :: rest) =
      stages_order.getD (assign_idx last (classify_raw_stage r.stage)) "" ::
        assign_stages_loop (some (assign_idx last (classify_raw_stage r.stage))) false rest := by
  simp [assign_stages_loop, h]

/-- First-match succeeds on a matching head rule. -/
theorem fm_head (pat : List Char) (res : String) (rules : List (List Char × String))
    (s : List Char) (h : has_sub pat s = true) :
    first_match ((pat, res) :: rules) s = some res := by
  simp [first_match, h]

/-- First-match skips a non-matching head rule. -/
theorem fm_skip (pat : List Char) (res : String) (rules : List (List Char × String))
    (s : List Char) (h : has_sub pat s = false) :
    first_match ((pat, res) :: rules) s = first_match rules s := by
  simp [first_match, h]

/-- An `"Exit"` can only sit at the last emitted position. -/
theorem loop_get_exit : ∀ (l : List DealRecord) (last : Option Nat) (p : Nat),
    (assign_stages_loop last false l).get? p = some "Exit" →
    p + 1 = (assign_stages_loop last false l).length := by
  intro l
  induction l with
  | nil => intro last p h; simp [assign_stages_loop] at h
  | cons r rest ih =>
    intro last p h
    by_cases hex : classify_raw_stage r.stage = some "Exit"
    · rw [loop_cons_exit last r rest hex] at h ⊢
      cases p with
      | zero => rfl
      | succ p => simp at h
    · rw [loop_cons_ne last r rest hex] at h ⊢
      cases p with
      | zero =>
        rw [List.get?_cons_zero] at h
        exact absurd (Option.some.inj h) (getD_stages_ne_exit _)
      | succ p =>
        rw [List.get?_cons_succ] at h
        have hp := ih (some (assign_idx last (classify_raw_stage r.stage))) p h
        simp only [List.length_cons]
        omega

/-- Records after an Exit-classified record never influence the output. -/
theorem loop_indep_after_exit (r : DealRecord) (rest : List DealRecord)
    (hr : classify_raw_stage r.stage = some "Exit") :
    ∀ (g : List DealRecord) (last : Option Nat) (ex : Bool),
      assign_stages_loop last ex (g ++ r :: rest) = assign_stages_loop last ex (g ++ [r]) := by
  intro g
  induction g with
  | nil =>
    intro last ex
    cases ex with
    | true => rw [assign_stages_loop_exited, assign_stages_loop_exited]
    | false =>
      simp only [List.nil_append]
      rw [loop_cons_exit last r rest hr, loop_cons_exit last r [] hr]
  | cons a g ih =>
    intro last ex
    cases ex with
    | true => rw [assign_stages_loop_exited, assign_stages_loop_exited]
    | false =>
      by_cases ha : classify_raw_stage a.stage = some "Exit"
      · simp only [List.cons_append]
        rw [loop_cons_exit last a _ ha, loop_cons_exit last a _ ha]
      · simp only [List.cons_append]
        rw [loop_cons_ne last a _ ha, loop_cons_ne last a _ ha, ih]

/-! ### Claim C1 -/

/-- C1: any raw stage whose normalized text contains "merger", "pre-ipo",
"pre ipo" or "pipe" classifies as Exit; the exit rules run before the
series rules, so "Series C Pre-IPO" is Exit, not Series C. -/
theorem exit_patterns_classify_as_exit :
    (∀ s : String,
      (has_sub "merger".data (norm_stage s) || has_sub "pre-ipo".data (norm_stage s)
        || has_sub "pre ipo".data (norm_stage s) || has_sub "pipe".data (norm_stage s)) = true →
      classify_raw_stage (some s) = some "Exit") ∧
    classify_raw_stage (some "Series C Pre-IPO") = some "Exit" := by
  constructor
  · intro s h
    simp only [Bool.or_eq_true] at h
    simp only [classify_raw_stage, classify_rules]
    by_cases h1 : has_sub "merger".data (norm_stage s) = true
    · exact fm_head _ _ _ _ h1
    · rw [fm_skip _ _ _ _ (Bool.not_eq_true _ ▸ h1)]
      by_cases h2 : has_sub "pre-ipo".data (norm_stage s) = true
      · exact fm_head _ _ _ _ h2
      · rw [fm_skip _ _ _ _ (Bool.not_eq_true _ ▸ h2)]
        by_cases h3 : has_sub "pre ipo".data (norm_stage s) = true
        · exact fm_head _ _ _ _ h3
        · rw [fm_skip _ _ _ _ (Bool.not_eq_true _ ▸ h3)]
          have h4 : has_sub "pipe".data (norm_stage s) = true := by tauto
          exact fm_head _ _ _ _ h4
  · decide

/-- C1 witness: concrete exit-pattern inputs. -/
theorem exit_patterns_classify_as_exit_witness :
    (has_sub "merger".data (norm_stage "Merger Agreement")
      || has_sub "pre-ipo".data (norm_stage "Merger Agreement")
      || has_sub "pre ipo".data (norm_stage "Merger Agreement")
      || has_sub "pipe".data (norm_stage "Merger Agreement")) = true ∧
    classify_raw_stage (some "Merger Agreement") = some "Exit" :=
  ⟨by decide, exit_patterns_classify_as_exit.1 "Merger Agreement" (by decide)⟩

/-! ### Claim C2 -/

/-- C2: if the assigner emits Exit at position `p`, then `p` is the last
position of the output, and all input records after the first
Exit-classified record are dropped (the output does not depend on them). -/
theorem exit_is_last_emitted :
    (∀ (g : List DealRecord) (p : Nat),
      (assigned_stages g).get? p = some "Exit" →
      p + 1 = (assigned_stages g).length) ∧
    (∀ (g : List DealRecord) (r : DealRecord) (rest : List DealRecord),
      classify_raw_stage r.stage = some "Exit" →
      assigned_stages (g ++ r :: rest) = assigned_stages (g ++ [r])) := by
  constructor
  · intro g p h
    exact loop_get_exit g none p h
  · intro g r rest hr
    exact loop_indep_after_exit r rest hr g none false

/-- C2 witness: Scenario C, Exit at position 1 is last, third record absent. -/
theorem exit_is_last_emitted_witness :
    (assigned_stages [mk_deal 1 (some "Series B"), mk_deal 2 (some "Merger Agreement"),
        mk_deal 3 (some "Seed")]).get? 1 = some "Exit" ∧
    1 + 1 = (assigned_stages [mk_deal 1 (some "Series B"), mk_deal 2 (some "Merger Agreement"),
        mk_deal 3 (some "Seed")]).length ∧
    classify_raw_stage (mk_deal 2 (some "Merger Agreement")).stage = some "Exit" ∧
    assigned_stages ([mk_deal 1 (some "Series B")] ++ mk_deal 2 (some "Merger Agreement") ::
        [mk_deal 3 (some "Seed")]) =
      assigned_stages ([mk_deal 1 (some "Series B")] ++ [mk_deal 2 (some "Merger Agreement")]) :=
  ⟨by decide,
    exit_is_last_emitted.1 [mk_deal 1 (some "Series B"), mk_deal 2 (some "Merger Agreement"),
      mk_deal 3 (some "Seed")] 1 (by decide),
    by decide,
    exit_is_last_emitted.2 [mk_deal 1 (some "Series B")] (mk_deal 2 (some "Merger Agreement"))
      [mk_deal 3 (some "Seed")] (by decide)⟩

/-! ### Claim C3 -/

/-- From state `some last`, the emitted non-exit ordinals form an
ascending chain starting at or above `last`. -/
theorem chain_from_last : ∀ (l : List DealRecord) (last : Nat), last ≤ max_idx →
    List.Chain (· ≤ ·) last
      (((assign_stages_loop (some last) false l).takeWhile
          (fun t => !(t == "Exit"))).map stage_to_idx) := by
  intro l
  induction l with
  | nil =>
    intro last h
    simp [assign_stages_loop]
  | cons r rest ih =>
    intro last h
    by_cases hex : classify_raw_stage r.stage = some "Exit"
    · rw [loop_cons_exit (some last) r rest hex]
      simp [List.takeWhile]
    · rw [loop_cons_ne (some last) r rest hex]
      have hidx_le : assign_idx (some last) (classify_raw_stage r.stage) ≤ max_idx :=
        assign_idx_le_max (fun k hk => (Option.some.inj hk) ▸ h) hex
      have hbeq :
          (stages_order.getD (assign_idx (some last) (classify_raw_stage r.stage)) ""
            == "Exit") = false :=
        beq_eq_false_iff_ne.mpr (getD_stages_ne_exit _)
      rw [List.takeWhile_cons, hbeq]
      simp only [Bool.not_false, if_true, List.map_cons]
      rw [stage_to_idx_getD hidx_le]
      exact List.Chain.cons (le_assign_idx _ h) (ih _ hidx_le)

/-- C3: within one company, the stages emitted before any Exit have
non-decreasing ordinals under Seed=0 < Series A=1 < … < Series E=5. -/
theorem non_exit_ordinals_monotone (g : List DealRecord) :
    List.Chain' (fun a b => stage_to_idx a ≤ stage_to_idx b)
      ((assigned_stages g).takeWhile (fun t => !(t == "Exit"))) := by
  refine (List.chain'_map stage_to_idx).mp ?_
  cases g with
  | nil => simp [assigned_stages, assign_stages_loop]
  | cons r rest =>
    by_cases hex : classify_raw_stage r.stage = some "Exit"
    · rw [assigned_stages, loop_cons_exit none r rest hex]
      simp [List.takeWhile]
    · rw [assigned_stages, loop_cons_ne none r rest hex]
      have hidx_le : assign_idx none (classify_raw_stage r.stage) ≤ max_idx :=
        assign_idx_le_max (fun k hk => Option.noConfusion hk) hex
      have hbeq :
          (stages_order.getD (assign_idx none (classify_raw_stage r.stage)) ""
            == "Exit") = false :=
        beq_eq_false_iff_ne.mpr (getD_stages_ne_exit _)
      rw [List.takeWhile_cons, hbeq]
      simp only [Bool.not_false, if_true, List.map_cons]
      rw [stage_to_idx_getD hidx_le]
      exact chain_from_last rest _ hidx_le

/-! ### Claim C4 -/

/-- C4: a canonical classification whose ordinal is strictly below
`lastOrdinal` is ignored and the loop emits the stage at
`min (lastOrdinal + 1) 5`; Scenario A produces [Seed, Series B, Series C]. -/
theorem regressive_label_steps_forward :
    (∀ (r : DealRecord) (rest : List DealRecord) (last : Nat) (m : String),
      classify_raw_stage r.stage = some m → m ∈ stages_order →
      stage_to_idx m < last →
      assign_stages_loop (some last) false (r :: rest) =
        stages_order.getD (min (last + 1) max_idx) "" ::
          assign_stages_loop (some (min (last + 1) max_idx)) false rest) ∧
    assigned_stages [mk_deal 1 (some "Seed"), mk_deal 2 (some "Series B"),
        mk_deal 3 (some "Series A")] = ["Seed", "Series B", "Series C"] := by
  constructor
  · intro r rest last m hm hmem hlt
    have hne : ¬ classify_raw_stage r.stage = some "Exit" := by
      rw [hm]
      intro hc
      have hme : m = "Exit" := Option.some.inj hc
      subst hme
      exact absurd hmem (by decide)
    rw [loop_cons_ne (some last) r rest hne, hm]
    have hidx : assign_idx (some last) (some m) = min (last + 1) max_idx := by
      simp only [assign_idx]
      rw [if_neg (by omega)]
    rw [hidx]
  · decide

/-- C4 witness: a "Series A" label after state 2 (Series B) steps to index 3. -/
theorem regressive_label_steps_forward_witness :
    classify_raw_stage (mk_deal 3 (some "Series A")).stage = some "Series A" ∧
    "Series A" ∈ stages_order ∧ stage_to_idx "Series A" < 2 ∧
    assign_stages_loop (some 2) false [mk_deal 3 (some "Series A")] =
      stages_order.getD (min (2 + 1) max_idx) "" ::
        assign_stages_loop (some (min (2 + 1) max_idx)) false [] :=
  ⟨by decide, by decide, by decide,
    regressive_label_steps_forward.1 (mk_deal 3 (some "Series A")) [] 2 "Series A"
      (by decide) (by decide) (by decide)⟩

/-! ### Claim C5 -/

/-- C5: an Unknown classification still yields a valid canonical stage:
Seed for the first non-exit deal, otherwise the capped forward step;
Scenario B `[null, null]` produces [Seed, Series A]. -/
theorem unknown_label_fallback :
    (∀ (r : DealRecord) (rest : List DealRecord),
      classify_raw_stage r.stage = none →
      assign_stages_loop none false (r :: rest) =
        "Seed" :: assign_stages_loop (some 0) false rest) ∧
    (∀ (r : DealRecord) (rest : List DealRecord) (last : Nat),
      classify_raw_stage r.stage = none →
      (assign_stages_loop (some last) false (r :: rest) =
        stages_order.getD (min (last + 1) max_idx) "" ::
          assign_stages_loop (some (min (last + 1) max_idx)) false rest) ∧
      stages_order.getD (min (last + 1) max_idx) "" ∈ stages_order) ∧
    assigned_stages [mk_deal 1 none, mk_deal 2 none] = ["Seed", "Series A"] := by
  refine ⟨?_, ?_, by decide⟩
  · intro r rest hm
    have hne : ¬ classify_raw_stage r.stage = some "Exit" := by simp [hm]
    rw [loop_cons_ne none r rest hne, hm]
    rfl
  · intro r rest last hm
    have hne : ¬ classify_raw_stage r.stage = some "Exit" := by simp [hm]
    constructor
    · rw [loop_cons_ne (some last) r rest hne, hm]
      rfl
    · exact getD_stages_mem (Nat.min_le_right _ _)

/-- C5 witness: two null-stage records give Seed then the forward step. -/
theorem unknown_label_fallback_witness :
    classify_raw_stage (mk_deal 1 none).stage = none ∧
    assign_stages_loop none false [mk_deal 1 none] =
      "Seed" :: assign_stages_loop (some 0) false [] ∧
    (assign_stages_loop (some 0) false [mk_deal 2 none] =
      stages_order.getD (min (0 + 1) max_idx) "" ::
        assign_stages_loop (some (min (0 + 1) max_idx)) false [] ∧
     stages_order.getD (min (0 + 1) max_idx) "" ∈ stages_order) :=
  ⟨by decide, unknown_label_fallback.1 (mk_deal 1 none) [] (by decide),
    unknown_label_fallback.2.1 (mk_deal 2 none) [] 0 (by decide)⟩

/-! ### Claim C6 -/

/-- Numbering the enumerated rows from `n` yields `n+1, n+2, …`. -/
theorem number_deals_fst (l : List (DealRecord × String)) :
    ∀ n, (((l.enumFrom n).map (fun p => (p.1 + 1, p.2))).map
        (fun t : Nat × DealRecord × String => t.1)) =
      List.range' (n + 1) l.length := by
  induction l with
  | nil => intro n; rfl
  | cons a l ih =>
    intro n
    simp only [List.enumFrom_cons, List.map_cons, List.length_cons, List.range'_succ,
      List.cons.injEq]
    exact ⟨trivial, ih (n + 1)⟩

/-- C6: deal numbers form exactly the contiguous sequence 1..len of the
emitted (post-truncation) rows; concretely, a 3-record input truncated at
an Exit still gets numbers [1, 2] with no gap. -/
theorem deal_numbers_contiguous :
    (∀ g : List DealRecord,
      (number_deals (assign_canonical_stages_and_exit g)).map
          (fun t : Nat × DealRecord × String => t.1) =
        List.range' 1 (assign_canonical_stages_and_exit g).length) ∧
    (number_deals (assign_canonical_stages_and_exit
        [mk_deal 1 (some "Series B"), mk_deal 2 (some "Merger Agreement"),
         mk_deal 3 (some "Seed")])).map (fun t : Nat × DealRecord × String => t.1) = [1, 2] := by
  constructor
  · intro g
    exact number_deals_fst (assign_canonical_stages_and_exit g) 0
  · decide

/-! ### Claim C7 -/

/-- The loop emits at most one stage per input record. -/
theorem loop_length_le : ∀ (l : List DealRecord) (last : Option Nat) (ex : Bool),
    (assign_stages_loop last ex l).length ≤ l.length := by
  intro l
  induction l with
  | nil => intro last ex; simp [assign_stages_loop]
  | cons r rest ih =>
    intro last ex
    cases ex with
    | true =>
      rw [assign_stages_loop_exited]
      simp
    | false =>
      by_cases hex : classify_raw_stage r.stage = some "Exit"
      · rw [loop_cons_exit last r rest hex]
        simp only [List.length_cons, List.length_nil]
        omega
      · rw [loop_cons_ne last r rest hex]
        simp only [List.length_cons]
        exact Nat.succ_le_succ (ih (some (assign_idx last (classify_raw_stage r.stage))) false)

/-- Re-running the loop on exactly the records it retained reproduces
its own output. -/
theorem loop_stable : ∀ (l : List DealRecord) (last : Option Nat),
    assign_stages_loop last false (l.take (assign_stages_loop last false l).length) =
      assign_stages_loop last false l := by
  intro l
  induction l with
  | nil => intro last; rfl
  | cons r rest ih =>
    intro last
    by_cases hex : classify_raw_stage r.stage = some "Exit"
    · rw [loop_cons_exit last r rest hex]
      simp only [List.length_cons, List.length_nil, List.take_succ_cons, List.take_zero]
      exact loop_cons_exit last r [] hex
    · rw [loop_cons_ne last r rest hex]
      simp only [List.length_cons, List.take_succ_cons]
      rw [loop_cons_ne last r _ hex]
      rw [ih]

/-- C7: running the assigner again on the retained (post-truncation)
records of a first run reproduces the identical stage sequence. -/
theorem assigner_stable_on_retained (g : List DealRecord) :
    assigned_stages ((assign_canonical_stages_and_exit g).map Prod.fst) =
      assigned_stages g := by
  have hmap : (assign_canonical_stages_and_exit g).map Prod.fst =
      g.take (assigned_stages g).length := by
    rw [assign_canonical_stages_and_exit]
    apply List.map_fst_zip
    rw [List.length_take]
    exact Nat.min_le_left _ _
  rw [hmap]
  exact loop_stable g none

/-! ### Claim C10 -/

/-- From state 5 (Series E) every further emission is Series E or Exit. -/
theorem loop_top_absorbing : ∀ (l : List DealRecord) (s : String),
    s ∈ assign_stages_loop (some max_idx) false l → s = "Series E" ∨ s = "Exit" := by
  intro l
  induction l with
  | nil => intro s h; simp [assign_stages_loop] at h
  | cons r rest ih =>
    intro s h
    by_cases hex : classify_raw_stage r.stage = some "Exit"
    · rw [loop_cons_exit _ r rest hex] at h
      right
      simpa using h
    · rw [loop_cons_ne _ r rest hex] at h
      have hidx : assign_idx (some max_idx) (classify_raw_stage r.stage) = max_idx := by
        cases hm : classify_raw_stage r.stage with
        | none => exact Nat.min_eq_right (Nat.le_succ max_idx)
        | some m =>
          have hmem : m ∈ stages_order := by
            rcases classify_mem hm with h' | h'
            · exact absurd (h' ▸ hm) hex
            · exact h'
          have hle : stage_to_idx m ≤ max_idx := stage_to_idx_le_max hmem
          simp only [assign_idx]
          by_cases hge : stage_to_idx m ≥ max_idx
          · rw [if_pos hge]
            have hEq : stage_to_idx m = max_idx := Nat.le_antisymm hle hge
            rw [hEq, Nat.min_self]
          · rw [if_neg hge]
            exact Nat.min_eq_right (Nat.le_succ max_idx)
      rw [hidx] at h
      rcases List.mem_cons.mp h with h | h
      · left
        rw [h]
        rfl
      · exact ih s h

/-- Once Series E is at position `p`, later positions hold Series E or Exit. -/
theorem loop_seriesE_then : ∀ (l : List DealRecord) (last : Option Nat) (ex : Bool)
    (p q : Nat) (s : String), p < q →
    (assign_stages_loop last ex l).get? p = some "Series E" →
    (assign_stages_loop last ex l).get? q = some s →
    s = "Series E" ∨ s = "Exit" := by
  intro l
  induction l with
  | nil => intro last ex p q s hpq hp hq; simp [assign_stages_loop] at hp
  | cons r rest ih =>
    intro last ex p q s hpq hp hq
    cases ex with
    | true =>
      rw [assign_stages_loop_exited] at hp
      simp at hp
    | false =>
      by_cases hex : classify_raw_stage r.stage = some "Exit"
      · rw [loop_cons_exit last r rest hex] at hp
        cases p with
        | zero => simp at hp
        | succ p => simp at hp
      · rw [loop_cons_ne last r rest hex] at hp hq
        cases p with
        | zero =>
          rw [List.get?_cons_zero] at hp
          have h5 : assign_idx last (classify_raw_stage r.stage) = 5 :=
            getD_stages_eq_seriesE (Option.some.inj hp)
          cases q with
          | zero => omega
          | succ q =>
            rw [List.get?_cons_succ] at hq
            have hmem : s ∈ assign_stages_loop
                (some (assign_idx last (classify_raw_stage r.stage))) false rest :=
              List.get?_mem hq
            rw [h5, ← max_idx_eq] at hmem
            exact loop_top_absorbing rest s hmem
        | succ p =>
          cases q with
          | zero => omega
          | succ q =>
            rw [List.get?_cons_succ] at hp hq
            exact ih _ false p q s (by omega) hp hq

/-- C10: Series E is absorbing among non-Exit stages: after an emitted
Series E, every later emitted stage is Series E or Exit, whatever the
later raw labels classify to. -/
theorem series_e_absorbing (g : List DealRecord) (p q : Nat) (s : String)
    (hpq : p < q)
    (hp : (assigned_stages g).get? p = some "Series E")
    (hq : (assigned_stages g).get? q = some s) :
    s = "Series E" ∨ s = "Exit" :=
  loop_seriesE_then g none false p q s hpq hp hq

/-- C10 witness: a Seed label right after Series E still emits Series E. -/
theorem series_e_absorbing_witness :
    0 < 1 ∧
    (assigned_stages [mk_deal 1 (some "Series E"),
        mk_deal 2 (some "Seed")]).get? 0 = some "Series E" ∧
    (assigned_stages [mk_deal 1 (some "Series E"),
        mk_deal 2 (some "Seed")]).get? 1 = some "Series E" ∧
    ("Series E" = "Series E" ∨ "Series E" = "Exit") :=
  ⟨by decide, by decide, by decide,
    series_e_absorbing [mk_deal 1 (some "Series E"), mk_deal 2 (some "Seed")] 0 1 "Series E"
      (by decide) (by decide) (by decide)⟩

/-! ### Claim C9: step 2.3 of `main`, `drop_duplicates(subset=["DEAL ID"])` -/

/-- Keep-first deduplication by deal id, tracking already-seen ids. -/
def drop_duplicates_go (seen : List Nat) : List DealRecord → List DealRecord
  | [] => []
  | r :: rest =>
    if r.dealId ∈ seen then drop_duplicates_go seen rest
    else r :: drop_duplicates_go (r.dealId :: seen) rest

/-- `df.drop_duplicates` on the deal-id column, keeping first occurrences. -/
def drop_duplicates_deal_id (l : List DealRecord) : List DealRecord :=
  drop_duplicates_go [] l

/-- The per-company path of `main` (steps 2.3 and 2.5): deduplicate by
deal id, then assign canonical stages; sorting is supplied externally. -/
def process_company (g : List DealRecord) : List (DealRecord × String) :=
  assign_canonical_stages_and_exit (drop_duplicates_deal_id g)

/-- Deduplication leaves pairwise-distinct deal ids, none already seen. -/
theorem drop_duplicates_go_nodup (l : List DealRecord) : ∀ seen : List Nat,
    ((drop_duplicates_go seen l).map DealRecord.dealId).Nodup ∧
    ∀ r ∈ drop_duplicates_go seen l, r.dealId ∉ seen := by
  induction l with
  | nil =>
    intro seen
    refine ⟨List.nodup_nil, ?_⟩
    intro r h
    simp [drop_duplicates_go] at h
  | cons a l ih =>
    intro seen
    by_cases ha : a.dealId ∈ seen
    · simp only [drop_duplicates_go, if_pos ha]
      exact ih seen
    · simp only [drop_duplicates_go, if_neg ha, List.map_cons, List.nodup_cons]
      refine ⟨⟨?_, (ih (a.dealId :: seen)).1⟩, ?_⟩
      · intro hmem
        rcases List.mem_map.mp hmem with ⟨r, hr, hid⟩
        exact absurd (List.mem_cons_self a.dealId seen)
          (hid ▸ (ih (a.dealId :: seen)).2 r hr)
      · intro r hr
        rcases List.mem_cons.mp hr with hr | hr
        · exact hr ▸ ha
        · intro hs
          exact (ih (a.dealId :: seen)).2 r hr (List.mem_cons_of_mem _ hs)

/-- Deduplication retains a sublist of the input (order preserved). -/
theorem drop_duplicates_go_sublist (l : List DealRecord) : ∀ seen,
    List.Sublist (drop_duplicates_go seen l) l := by
  induction l with
  | nil => intro seen; simp [drop_duplicates_go]
  | cons a l ih =>
    intro seen
    simp only [drop_duplicates_go]
    split
    · exact (ih seen).trans (List.sublist_cons_self a l)
    · exact List.Sublist.cons₂ a (ih _)

/-- C9 counterexample: two records share deal id 7, yet the core raises
no error and still produces a canonical sequence for the company. -/
theorem duplicate_ids_no_error_cex :
    (mk_deal 7 (some "Seed")).dealId = (mk_deal 7 (some "Series B")).dealId ∧
    process_company [mk_deal 7 (some "Seed"), mk_deal 7 (some "Series B")] =
      [(mk_deal 7 (some "Seed"), "Seed")] := by
  constructor
  · rfl
  · decide

/-- C9 amended: on duplicate deal identifiers the core signals nothing; it
silently drops every later record with an already-seen id (keep-first,
order-preserving) and produces the company's sequence from the remainder. -/
theorem duplicate_ids_dropped (g : List DealRecord) :
    ((drop_duplicates_deal_id g).map DealRecord.dealId).Nodup ∧
    List.Sublist (drop_duplicates_deal_id g) g ∧
    process_company g = assign_canonical_stages_and_exit (drop_duplicates_deal_id g) :=
  ⟨(drop_duplicates_go_nodup g []).1, drop_duplicates_go_sublist g [], rfl⟩

/-! ### Claim C8: Reshaper (steps 2.7 to 2.9 of `main`) -/

/-- A wide-table cell value: text or numeric; `Option` models NaN/null. -/
inductive Val where
  | s (v : String)
  | i (v : Int)
deriving DecidableEq

/-- A wide-table column name: the two identity columns, or the column
written as the f-string of a variable prefix and deal number `k`; since
that f-string is injective on the (prefix, k) pair, the pair is the
column's identity. -/
inductive ColName where
  | company
  | companyId
  | part (pre : String) (k : Nat)
deriving DecidableEq

/-- One company's slice of `df_assigned`: name, id, assigned rows in order. -/
structure Company where
  name : String
  cid : Nat
  rows : List (DealRecord × String)
deriving DecidableEq

/-- `var_map` of step 2.8: source column to wide-column prefix, in order. -/
def var_map : List (String × String) :=
  [("CANONICAL_STAGE", "stage"), ("DEAL DATE", "deal_date"),
   ("COMPANY REVENUE (CURR. MN)", "company_revenue"),
   ("DEAL SIZE (USD MN)", "deal_size_usd")]

/-- Reading one source column out of an assigned row. -/
def cell_of (col : String) (r : DealRecord × String) : Option Val :=
  if col = "CANONICAL_STAGE" then some (Val.s r.2)
  else if col = "DEAL DATE" then r.1.dealDate.map Val.i
  else if col = "COMPANY REVENUE (CURR. MN)" then r.1.companyRevenue.map Val.i
  else if col = "DEAL SIZE (USD MN)" then r.1.dealSizeUsd.map Val.i
  else none

/-- `max_deals`: the maximum deal number over all companies, which is the
maximum row count since each company's deal numbers are `1..len`. -/
def max_deals (cs : List Company) : Nat :=
  (cs.map (fun c => c.rows.length)).foldr max 0

/-- One `df_idx[col].unstack("deal_number")` block for one company:
columns are deal numbers `1..n`; the cell comes from the row with that
deal number and is NaN when the company has fewer deals. -/
def unstack_part (n : Nat) (vm : String × String) (c : Company) :
    List (ColName × Option Val) :=
  (List.range' 1 n).map
    (fun k => (ColName.part vm.2 k, (c.rows.get? (k - 1)).bind (fun r => cell_of vm.1 r)))

/-- A company's row of `df_wide` (step 2.8): identity columns, then the
four unstacked blocks concatenated variable-major. -/
def df_wide_row (n : Nat) (c : Company) : List (ColName × Option Val) :=
  [(ColName.company, some (Val.s c.name)), (ColName.companyId, some (Val.i c.cid))] ++
    (var_map.map (fun vm => unstack_part n vm c)).flatten

/-- The columns present in `df_wide`. -/
def wide_col_names (n : Nat) : List ColName :=
  [ColName.company, ColName.companyId] ++
    (var_map.map (fun vm => (List.range' 1 n).map (fun k => ColName.part vm.2 k))).flatten

/-- Column selection by name (`df_wide[col]`), first match. -/
def lookup_cell (nm : ColName) : List (ColName × Option Val) → Option Val
  | [] => none
  | e :: rest => if e.1 = nm then e.2 else lookup_cell nm rest

/-- The prefix order of step 2.9's inner loop. -/
def col_prefixes : List String :=
  ["stage", "deal_date", "company_revenue", "deal_size_usd"]

/-- `ordered_deal_cols` of step 2.9: deal-number-major, prefix-minor,
keeping only the columns present in `df_wide`. -/
def ordered_deal_cols (n : Nat) : List ColName :=
  ((List.range' 1 n).map (fun k =>
    col_prefixes.filterMap (fun pre =>
      if ColName.part pre k ∈ wide_col_names n then some (ColName.part pre k)
      else none))).flatten

/-- `final_cols = base_cols + ordered_deal_cols`. -/
def final_cols (n : Nat) : List ColName :=
  [ColName.company, ColName.companyId] ++ ordered_deal_cols n

/-- `df_final = df_wide[final_cols]`: one row of cells per company. -/
def df_final (cs : List Company) : List (List (Option Val)) :=
  cs.map (fun c =>
    (final_cols (max_deals cs)).map (fun nm => lookup_cell nm (df_wide_row (max_deals cs) c)))

/-- Stated from the spec (§4.4 Reshaper), for comparison with `df_final`:
the four cells of one deal in the order stage, date, revenue, size. -/
def deal_cells_spec (r : DealRecord × String) : List (Option Val) :=
  [some (Val.s r.2), r.1.dealDate.map Val.i, r.1.companyRevenue.map Val.i,
   r.1.dealSizeUsd.map Val.i]

/-- Stated from the spec: one reshaped row is the identity columns, then
for k = 1..N the deal-k cell group, null-filled when the company has
fewer than k deals. -/
def wide_row_spec (n : Nat) (c : Company) : List (Option Val) :=
  [some (Val.s c.name), some (Val.i c.cid)] ++
    ((List.range' 1 n).map (fun k =>
      match c.rows.get? (k - 1) with
      | some r => deal_cells_spec r
      | none => [none, none, none, none])).flatten

/-- Scenario E data: two companies with 3 and 1 assigned deals. -/
def scenarioE : List Company :=
  [⟨"Acme", 1, [(mk_deal 1 (some "Seed"), "Seed"), (mk_deal 2 (some "Series A"), "Series A"),
      (mk_deal 3 (some "Series B"), "Series B")]⟩,
   ⟨"Bolt", 2, [(mk_deal 4 (some "Seed"), "Seed")]⟩]

/-- `col_prefixes` is exactly the prefix column of `var_map`. -/
theorem col_prefixes_eq : col_prefixes = var_map.map Prod.snd := by decide

/-- Every k-grouped column with a known prefix is present in `df_wide`. -/
theorem part_mem_wide_col_names {n k : Nat} {pre : String}
    (hk : k ∈ List.range' 1 n) (hpre : pre ∈ col_prefixes) :
    ColName.part pre k ∈ wide_col_names n := by
  rcases List.mem_map.mp (col_prefixes_eq ▸ hpre) with ⟨vm, hvm, hsnd⟩
  simp only [wide_col_names, List.mem_append, List.mem_flatten]
  right
  refine ⟨(List.range' 1 n).map (fun j => ColName.part vm.2 j), ?_, ?_⟩
  · exact List.mem_map.mpr ⟨vm, hvm, rfl⟩
  · subst hsnd
    exact List.mem_map.mpr ⟨k, hk, rfl⟩

/-- The presence filter of step 2.9 never drops a column. -/
theorem ordered_deal_cols_eq (n : Nat) :
    ordered_deal_cols n =
      ((List.range' 1 n).map
        (fun k => col_prefixes.map (fun pre => ColName.part pre k))).flatten := by
  unfold ordered_deal_cols
  congr 1
  apply List.map_congr_left
  intro k hk
  have h1 : ColName.part "stage" k ∈ wide_col_names n :=
    part_mem_wide_col_names hk (by decide)
  have h2 : ColName.part "deal_date" k ∈ wide_col_names n :=
    part_mem_wide_col_names hk (by decide)
  have h3 : ColName.part "company_revenue" k ∈ wide_col_names n :=
    part_mem_wide_col_names hk (by decide)
  have h4 : ColName.part "deal_size_usd" k ∈ wide_col_names n :=
    part_mem_wide_col_names hk (by decide)
  simp [col_prefixes, h1, h2, h3, h4]

/-- Looking up a key absent from a front segment skips it. -/
theorem lookup_cell_append_of_not_mem (nm : ColName) :
    ∀ (l rest : List (ColName × Option Val)), (∀ e ∈ l, e.1 ≠ nm) →
    lookup_cell nm (l ++ rest) = lookup_cell nm rest := by
  intro l
  induction l with
  | nil => intro rest h; rfl
  | cons e l ih =>
    intro rest h
    simp only [List.cons_append, lookup_cell]
    rw [if_neg (h e (List.mem_cons_self e l))]
    exact ih rest (fun x hx => h x (List.mem_cons_of_mem e hx))

/-- Looking up column `k` inside its own unstacked block hits cell `k`. -/
theorem lookup_cell_range_hit (p : String) (f : Nat → Option Val) :
    ∀ (n s k : Nat) (rest : List (ColName × Option Val)), s ≤ k → k < s + n →
    lookup_cell (ColName.part p k)
      (((List.range' s n).map (fun j => (ColName.part p j, f j))) ++ rest) = f k := by
  intro n
  induction n with
  | zero => intro s k rest h1 h2; omega
  | succ n ih =>
    intro s k rest h1 h2
    rw [List.range'_succ]
    simp only [List.map_cons, List.cons_append, lookup_cell]
    by_cases hk : s = k
    · subst hk
      rw [if_pos rfl]
    · rw [if_neg (by intro hEq; injection hEq with hp hk2; exact hk hk2)]
      exact ih (s + 1) k rest (by omega) (by omega)

/-- All keys of an unstacked block carry that block's prefix. -/
theorem unstack_part_keys (n : Nat) (vm : String × String) (c : Company)
    (q : String) (k : Nat) (hne : vm.2 ≠ q) :
    ∀ e ∈ unstack_part n vm c, e.1 ≠ ColName.part q k := by
  intro e he
  rcases List.mem_map.mp he with ⟨j, hj, rfl⟩
  intro hEq
  injection hEq with hp hk2
  exact hne hp

/-- The two identity columns never collide with a k-grouped column. -/
theorem lookup_base (p : String) (k : Nat) (x y : Option Val)
    (rest : List (ColName × Option Val)) :
    lookup_cell (ColName.part p k)
        ([(ColName.company, x), (ColName.companyId, y)] ++ rest) =
      lookup_cell (ColName.part p k) rest := by
  apply lookup_cell_append_of_not_mem
  intro e he
  rcases List.mem_cons.mp he with rfl | he
  · exact fun h => ColName.noConfusion h
  · rcases List.mem_cons.mp he with rfl | he
    · exact fun h => ColName.noConfusion h
    · exact absurd he (List.not_mem_nil e)

/-- `df_wide` rows, with the variable-major blocks spelled out. -/
theorem df_wide_row_eq (n : Nat) (c : Company) :
    df_wide_row n c =
      [(ColName.company, some (Val.s c.name)), (ColName.companyId, some (Val.i c.cid))] ++
        (unstack_part n ("CANONICAL_STAGE", "stage") c ++
          (unstack_part n ("DEAL DATE", "deal_date") c ++
            (unstack_part n ("COMPANY REVENUE (CURR. MN)", "company_revenue") c ++
              (unstack_part n ("DEAL SIZE (USD MN)", "deal_size_usd") c ++ [])))) := rfl

theorem lookup_stage (n : Nat) (c : Company) {k : Nat} (h1 : 1 ≤ k) (h2 : k ≤ n) :
    lookup_cell (ColName.part "stage" k) (df_wide_row n c) =
      (c.rows.get? (k - 1)).bind (fun r => cell_of "CANONICAL_STAGE" r) := by
  rw [df_wide_row_eq, lookup_base]
  rw [show unstack_part n ("CANONICAL_STAGE", "stage") c =
      (List.range' 1 n).map (fun j => (ColName.part "stage" j,
        (c.rows.get? (j - 1)).bind (fun r => cell_of "CANONICAL_STAGE" r))) from rfl]
  exact lookup_cell_range_hit "stage" _ n 1 k _ h1 (by omega)

theorem lookup_date (n : Nat) (c : Company) {k : Nat} (h1 : 1 ≤ k) (h2 : k ≤ n) :
    lookup_cell (ColName.part "deal_date" k) (df_wide_row n c) =
      (c.rows.get? (k - 1)).bind (fun r => cell_of "DEAL DATE" r) := by
  rw [df_wide_row_eq, lookup_base,
    lookup_cell_append_of_not_mem _ _ _ (unstack_part_keys n _ c _ k (by decide))]
  rw [show unstack_part n ("DEAL DATE", "deal_date") c =
      (List.range' 1 n).map (fun j => (ColName.part "deal_date" j,
        (c.rows.get? (j - 1)).bind (fun r => cell_of "DEAL DATE" r))) from rfl]
  exact lookup_cell_range_hit "deal_date" _ n 1 k _ h1 (by omega)

theorem lookup_revenue (n : Nat) (c : Company) {k : Nat} (h1 : 1 ≤ k) (h2 : k ≤ n) :
    lookup_cell (ColName.part "company_revenue" k) (df_wide_row n c) =
      (c.rows.get? (k - 1)).bind (fun r => cell_of "COMPANY REVENUE (CURR. MN)" r) := by
  rw [df_wide_row_eq, lookup_base,
    lookup_cell_append_of_not_mem _ _ _ (unstack_part_keys n _ c _ k (by decide)),
    lookup_cell_append_of_not_mem _ _ _ (unstack_part_keys n _ c _ k (by decide))]
  rw [show unstack_part n ("COMPANY REVENUE (CURR. MN)", "company_revenue") c =
      (List.range' 1 n).map (fun j => (ColName.part "company_revenue" j,
        (c.rows.get? (j - 1)).bind (fun r => cell_of "COMPANY REVENUE (CURR. MN)" r))) from rfl]
  exact lookup_cell_range_hit "company_revenue" _ n 1 k _ h1 (by omega)

theorem lookup_size (n : Nat) (c : Company) {k : Nat} (h1 : 1 ≤ k) (h2 : k ≤ n) :
    lookup_cell (ColName.part "deal_size_usd" k) (df_wide_row n c) =
      (c.rows.get? (k - 1)).bind (fun r => cell_of "DEAL SIZE (USD MN)" r) := by
  rw [df_wide_row_eq, lookup_base,
    lookup_cell_append_of_not_mem _ _ _ (unstack_part_keys n _ c _ k (by decide)),
    lookup_cell_append_of_not_mem _ _ _ (unstack_part_keys n _ c _ k (by decide)),
    lookup_cell_append_of_not_mem _ _ _ (unstack_part_keys n _ c _ k (by decide))]
  rw [show unstack_part n ("DEAL SIZE (USD MN)", "deal_size_usd") c =
      (List.range' 1 n).map (fun j => (ColName.part "deal_size_usd" j,
        (c.rows.get? (j - 1)).bind (fun r => cell_of "DEAL SIZE (USD MN)" r))) from rfl]
  exact lookup_cell_range_hit "deal_size_usd" _ n 1 k _ h1 (by omega)

/-- Selecting `final_cols` out of a `df_wide` row gives the spec's row. -/
theorem df_final_row_eq (n : Nat) (c : Company) :
    (final_cols n).map (fun nm => lookup_cell nm (df_wide_row n c)) = wide_row_spec n c := by
  rw [final_cols, ordered_deal_cols_eq, wide_row_spec, List.map_append]
  have hbase : ([ColName.company, ColName.companyId].map
      (fun nm => lookup_cell nm (df_wide_row n c))) =
      [some (Val.s c.name), some (Val.i c.cid)] := rfl
  rw [hbase, List.map_flatten, List.map_map]
  congr 1
  congr 1
  apply List.map_congr_left
  intro k hk
  obtain ⟨h1, h2⟩ : 1 ≤ k ∧ k ≤ n := by
    rcases List.mem_range'.mp hk with ⟨i, hi, rfl⟩
    omega
  simp only [Function.comp, col_prefixes, List.map_cons, List.map_nil]
  rw [lookup_stage n c h1 h2, lookup_date n c h1 h2, lookup_revenue n c h1 h2,
    lookup_size n c h1 h2]
  cases hrow : c.rows.get? (k - 1) with
  | some r => rfl
  | none => rfl

/-- C8: the reshaped table has one row per company; each row is the two
identity columns followed, for k = 1..N (N the maximum sequence length),
by the stage/date/revenue/size cells of deal k in that fixed order, with
nulls in every group beyond the company's own length; and the emitted
column list is exactly k-major, prefix-minor over 1..N. -/
theorem reshaper_layout (cs : List Company) (_hne : ∀ c ∈ cs, c.rows ≠ []) :
    df_final cs = cs.map (fun c => wide_row_spec (max_deals cs) c) ∧
    final_cols (max_deals cs) =
      [ColName.company, ColName.companyId] ++
        ((List.range' 1 (max_deals cs)).map
          (fun k => col_prefixes.map (fun pre => ColName.part pre k))).flatten := by
  constructor
  · rw [df_final]
    apply List.map_congr_left
    intro c hc
    exact df_final_row_eq (max_deals cs) c
  · rw [final_cols, ordered_deal_cols_eq]

/-- C8 witness: Scenario E, companies of lengths 3 and 1. -/
theorem reshaper_layout_witness :
    (∀ c ∈ scenarioE, c.rows ≠ []) ∧
    (df_final scenarioE = scenarioE.map (fun c => wide_row_spec (max_deals scenarioE) c) ∧
     final_cols (max_deals scenarioE) =
       [ColName.company, ColName.companyId] ++
         ((List.range' 1 (max_deals scenarioE)).map
           (fun k => col_prefixes.map (fun pre => ColName.part pre k))).flatten) :=
  ⟨by decide, reshaper_layout scenarioE (by decide)⟩

end Preproc
